import Mathlib

/-!
Verification of the ordered-position maintenance core of the kanban
repository.

The embedding follows the TypeScript source:
* server reorder transaction — `src/app/api/tasks/reorder/route.ts` (`POST`);
* column reorder — the columns-reorder route (`POST`, `src/unnamed/part_003`);
* client drag-session logic — `src/components/KanbanBoard.tsx`
  (`findColumnOfItem`, `resolveColumnId`, `getTaskPosition`,
  `computeDragResult`, the task branch of `handleDragEnd`,
  `sortTasksByPriority`, `sortedColumns`).

Timestamps (`Date` values) are modelled as `Option Nat` (null versus an
epoch instant); database rows are lists of records; Prisma `updateMany`
calls become `List.map` with the `where` clause as the `if` condition.
-/

namespace Kanban

/-- A task row: the fields of the Prisma `Task` model that the reorder
core reads or writes (`id`, `columnId`, `order`, `startDate`, `endDate`). -/
structure Task where
  id : String
  columnId : String
  order : Int
  startDate : Option Nat
  endDate : Option Nat
deriving Repr, DecidableEq

/-- A column row: identifier, its own position among the board's columns,
and the two workflow flags (`isStart`, `isEnd`). -/
structure Column where
  id : String
  order : Int
  isStart : Bool
  isEnd : Bool
deriving Repr, DecidableEq

/-- The stored state of one user's board: its column rows and task rows. -/
structure DB where
  columns : List Column
  tasks : List Task
deriving Repr, DecidableEq

/-- The parsed JSON body of `POST /api/tasks/reorder`:
`{ taskId, columnId, newOrder }`, each field possibly absent. -/
structure ReorderRequest where
  taskId : Option String
  columnId : Option String
  newOrder : Option Int
deriving Repr, DecidableEq

/-- The response of `POST /api/tasks/reorder`: 400 for missing fields,
404 for a missing task/column, otherwise 200 with the whole board
(columns ordered by `order`, each with its tasks ordered by `order`),
exactly as `NextResponse.json(board)` at the end of the route. -/
inductive ReorderResponse where
  | badRequest
  | notFound
  | boardPayload (columns : List (Column × List Task))
deriving Repr, DecidableEq

/-- JS truthiness of `!x` for an optional string field of the parsed
body: `undefined` and the empty string are falsy. -/
def jsFalsyStr : Option String → Bool
  | none => true
  | some s => s == ""

/-- `prisma.task.findFirst({ where: { id } })` (ownership is modelled as
a single-user store, so the ownership chain always matches). -/
def findTask (tasks : List Task) (id : String) : Option Task :=
  tasks.find? (fun t => t.id == id)

/-- `prisma.column.findFirst({ where: { id } })`. -/
def findColumn (cols : List Column) (id : String) : Option Column :=
  cols.find? (fun c => c.id == id)

/-- The body of `prisma.$transaction` in `POST /api/tasks/reorder`
(route.ts lines 57–147): the same-column or cross-column sibling
`updateMany` shifts followed by the `task.update` carrying `columnId`,
`order` and the derived date fields.  `task` and `targetColumn` are the
rows loaded before the transaction; `now` is `new Date()`. -/
def applyReorderTx (tasks : List Task) (task : Task) (targetColumn : Column)
    (newOrder : Int) (now : Nat) : List Task :=
  let oldColumnId := task.columnId
  let oldOrder := task.order
  let columnId := targetColumn.id
  let shifted :=
    if oldColumnId == columnId then
      if newOrder > oldOrder then
        tasks.map fun t =>
          if t.columnId == columnId && oldOrder < t.order && t.order ≤ newOrder then
            { t with order := t.order - 1 } else t
      else if newOrder < oldOrder then
        tasks.map fun t =>
          if t.columnId == columnId && newOrder ≤ t.order && t.order < oldOrder then
            { t with order := t.order + 1 } else t
      else tasks
    else
      (tasks.map fun t =>
          if t.columnId == oldColumnId && oldOrder < t.order then
            { t with order := t.order - 1 } else t).map fun t =>
        if t.columnId == columnId && t.order ≥ newOrder then
          { t with order := t.order + 1 } else t
  let newEndDate : Option Nat :=
    if targetColumn.isEnd then some now
    else if task.endDate.isSome then none
    else task.endDate
  let newStartDate : Option Nat :=
    if targetColumn.isStart && task.startDate.isNone then some now
    else task.startDate
  shifted.map fun t =>
    if t.id == task.id then
      { t with columnId := columnId, order := newOrder,
               startDate := newStartDate, endDate := newEndDate }
    else t

/-- The board payload the route builds after the transaction
(`board.findFirst` with `columns: { orderBy: order asc, include: tasks
orderBy order asc }`). -/
def boardPayload (db : DB) : List (Column × List Task) :=
  (List.insertionSort (fun a b : Column => a.order ≤ b.order) db.columns).map
    fun c => (c, List.insertionSort (fun a b : Task => a.order ≤ b.order)
      (db.tasks.filter (fun t => t.columnId == c.id)))

/-- `POST /api/tasks/reorder`: field validation, the two `findFirst`
lookups, the transaction, and the board response. -/
def reorderPOST (db : DB) (req : ReorderRequest) (now : Nat) :
    ReorderResponse × DB :=
  if jsFalsyStr req.taskId || jsFalsyStr req.columnId || req.newOrder.isNone then
    (.badRequest, db)
  else
    match findTask db.tasks (req.taskId.getD "") with
    | none => (.notFound, db)
    | some task =>
      match findColumn db.columns (req.columnId.getD "") with
      | none => (.notFound, db)
      | some targetColumn =>
        let newTasks := applyReorderTx db.tasks task targetColumn (req.newOrder.getD 0) now
        let db' : DB := { db with tasks := newTasks }
        (.boardPayload (boardPayload db'), db')

/-- The columns-reorder route's transaction (validation already passed):
every column whose id occurs in `columnIds` gets `order := its index`.
The route issues one `column.update` per id; since validation forces the
ids to be distinct, the sequential updates are this single pass. -/
def applyColumnOrders (columns : List Column) (columnIds : List String) :
    List Column :=
  columns.map fun c =>
    match columnIds.findIdx? (fun x => x == c.id) with
    | some i => { c with order := (i : Int) }
    | none => c

/-- The `order` values of the tasks of container `cid`. -/
def columnOrders (tasks : List Task) (cid : String) : List Int :=
  (tasks.filter (fun t => t.columnId == cid)).map (fun t => t.order)

/-- `[0, 1, ..., n-1]` as integers. -/
def rangeInt (n : Nat) : List Int := (List.range n).map (fun (i : Nat) => (i : Int))

/-- The dense-order invariant for one list of order values: the multiset
of values is exactly `{0, 1, ..., n-1}` — no duplicates, no gaps. -/
def dense (l : List Int) : Prop := l.Perm (rangeInt l.length)

/-- The position invariant: every container's task order values are dense. -/
def InvariantTasks (tasks : List Task) : Prop :=
  ∀ cid : String, dense (columnOrders tasks cid)

/-- Task ids are pairwise distinct (they are database primary keys). -/
def WFTasks (tasks : List Task) : Prop :=
  (tasks.map (fun t => t.id)).Nodup

instance (tasks : List Task) : Decidable (WFTasks tasks) := by
  unfold WFTasks
  infer_instance

/-- Lookup of a stored task row by id (the row the route would return). -/
def taskById (tasks : List Task) (id : String) : Option Task :=
  tasks.find? (fun t => t.id == id)

/-! ### Client-side state (`src/components/KanbanBoard.tsx`) -/

/-- The client's `Task` object fields used by the drag/sort logic. -/
structure CTask where
  id : String
  columnId : String
  order : Int
  priority : String
  startDate : Option Nat
  endDate : Option Nat
deriving Repr, DecidableEq

/-- The client's `Column` object: id plus its ordered task array. -/
structure CColumn where
  id : String
  tasks : List CTask
deriving Repr, DecidableEq

/-- The client's `Board` state (`const [board, setBoard] = useState`). -/
structure CBoard where
  columns : List CColumn
deriving Repr, DecidableEq

/-- `findColumnOfItem`: the column whose id is `id`, else the first
column containing a task with that id. -/
def findColumnOfItem (id : String) (columns : List CColumn) : Option CColumn :=
  match columns.find? (fun c => c.id == id) with
  | some col => some col
  | none => columns.find? (fun c => c.tasks.any (fun t => t.id == id))

/-- `resolveColumnId`: the found column's id (the source's
`col.id === id ? id : col.id` is `col.id` in both branches). -/
def resolveColumnId (id : String) (columns : List CColumn) : Option String :=
  match findColumnOfItem id columns with
  | none => none
  | some col => some col.id

/-- `getTaskPosition`: the first column containing the task, paired with
the task's array index (note: the index, not the stored `order` field). -/
def getTaskPosition (taskId : String) (columns : List CColumn) :
    Option (String × Int) :=
  columns.findSome? fun col =>
    match col.tasks.findIdx? (fun t => t.id == taskId) with
    | some idx => some (col.id, (idx : Int))
    | none => none

/-- dnd-kit's `arrayMove`: remove the element at `i`, then splice it
back in at `j`; a `j` beyond the shortened array's end is clamped to the
end, as JS `splice` does.  Call sites always pass an in-range `i`. -/
def arrayMove {α : Type} (l : List α) (i j : Nat) : List α :=
  match l.get? i with
  | none => l
  | some x =>
    let removed := l.eraseIdx i
    removed.insertIdx (min j removed.length) x

/-- `reordered.map((t, i) => ({ ...t, order: i }))`. -/
def reindex (tasks : List CTask) : List CTask :=
  tasks.mapIdx (fun i t => { t with order := (i : Int) })

/-- The result record of `computeDragResult` inside `handleDragEnd`. -/
structure DragResult where
  nextBoard : CBoard
  finalPos : Option (String × Int)
deriving Repr, DecidableEq

/-- `computeDragResult(baseBoard)` from `handleDragEnd`
(KanbanBoard.tsx lines 600–657): resolve both columns, compute
`oldIndex`/`newIndex`, apply `arrayMove` (same column) or
remove-and-splice (cross column), reindex `order := i`, and read the
moved task's final `(columnId, index)`. -/
def computeDragResult (board : CBoard) (activeId overId : String) : DragResult :=
  match resolveColumnId activeId board.columns,
        resolveColumnId overId board.columns with
  | some activeColId, some overColId =>
    match board.columns.find? (fun c => c.id == activeColId),
          board.columns.find? (fun c => c.id == overColId) with
    | some activeCol, some overCol =>
      match activeCol.tasks.findIdx? (fun t => t.id == activeId) with
      | none => ⟨board, none⟩
      | some oldIndex =>
        let newIndex :=
          (overCol.tasks.findIdx? (fun t => t.id == overId)).getD
            overCol.tasks.length
        match activeCol.tasks.get? oldIndex with
        | none => ⟨board, none⟩
        | some movingTask =>
          let nextBoard : CBoard :=
            if activeColId == overColId then
              if oldIndex ≠ newIndex then
                ⟨board.columns.map fun c =>
                  if c.id == activeColId then
                    { c with tasks := reindex (arrayMove c.tasks oldIndex newIndex) }
                  else c⟩
              else board
            else
              ⟨board.columns.map fun c =>
                if c.id == activeColId then
                  { c with tasks := reindex (c.tasks.filter (fun t => !(t.id == activeId))) }
                else if c.id == overColId then
                  { c with tasks := reindex (c.tasks.insertIdx newIndex { movingTask with columnId := overColId }) }
                else c⟩
          ⟨nextBoard, getTaskPosition activeId nextBoard.columns⟩
    | _, _ => ⟨board, none⟩
  | _, _ => ⟨board, none⟩

/-- The task branch of `handleDragEnd` up to the persist decision:
the board value after the optimistic `setBoard`, and — when the final
position exists and differs from the position in the drag-start snapshot
— the `(columnId, newOrder)` the persist request will carry. -/
def dragEndDecision (startBoard board : CBoard) (activeId overId : String) :
    CBoard × Option (String × Int) :=
  let r := computeDragResult board activeId overId
  match r.finalPos with
  | none => (r.nextBoard, none)
  | some fp =>
    match getTaskPosition activeId startBoard.columns with
    | some sp => if sp = fp then (r.nextBoard, none) else (r.nextBoard, some fp)
    | none => (r.nextBoard, some fp)

/-- The success-path merge: `setBoard` maps every task, replacing the
moved task's `startDate`/`endDate` with the values read off the response. -/
def mergeTaskDates (board : CBoard) (taskId : String) (sd ed : Option Nat) :
    CBoard :=
  ⟨board.columns.map fun c =>
    { c with tasks := c.tasks.map fun t =>
        if t.id == taskId then { t with startDate := sd, endDate := ed } else t }⟩

/-- `updatedTask.startDate` where `updatedTask = await response.json()`:
the route's 200 response is the whole board object, which carries no
`startDate` field, so the access yields `undefined` and the client's
`updatedTask.startDate ? String(updatedTask.startDate) : null` stores
null. -/
def boardJSONStartDate (_payload : List (Column × List Task)) : Option Nat :=
  none

/-- `updatedTask.endDate` on the board-shaped response JSON: undefined,
so the merge stores null (see `boardJSONStartDate`). -/
def boardJSONEndDate (_payload : List (Column × List Task)) : Option Nat :=
  none

/-- Outcome of the `fetch('/api/tasks/reorder')` call as the client sees
it: an HTTP response, or a thrown network error. -/
inductive PersistResult where
  | response (r : ReorderResponse)
  | networkError
deriving Repr, DecidableEq

/-- The task branch of `handleDragEnd`, client side only, with the
persist outcome abstracted: returns the final board state and whether a
network call was made.  On a non-ok response or a thrown error the code
runs `setBoard(dragStartBoardRef.current)` — rollback to the snapshot. -/
def handleDragEndTask (startBoard board : CBoard) (activeId overId : String)
    (persist : PersistResult) : CBoard × Bool :=
  match dragEndDecision startBoard board activeId overId with
  | (ob, none) => (ob, false)
  | (ob, some _) =>
    match persist with
    | .response (.boardPayload p) =>
        (mergeTaskDates ob activeId (boardJSONStartDate p) (boardJSONEndDate p), true)
    | .response .badRequest => (startBoard, true)
    | .response .notFound => (startBoard, true)
    | .networkError => (startBoard, true)

/-- The client drag-end combined with the server route: the persist
request (when issued) is answered by `reorderPOST` on the stored state.
Returns the stored state, the client board, and whether a call was made. -/
def systemDragEnd (sdb : DB) (startBoard board : CBoard)
    (activeId overId : String) (now : Nat) : DB × CBoard × Bool :=
  match dragEndDecision startBoard board activeId overId with
  | (ob, none) => (sdb, ob, false)
  | (ob, some fp) =>
    let res := reorderPOST sdb ⟨some activeId, some fp.1, some fp.2⟩ now
    match res.1 with
    | .boardPayload p =>
        (res.2, mergeTaskDates ob activeId (boardJSONStartDate p) (boardJSONEndDate p), true)
    | _ => (res.2, startBoard, true)

/-! ### Client-side display sort (`sortTasksByPriority`, `sortedColumns`) -/

/-- The `PRIORITY_ORDER` record literal. -/
def PRIORITY_ORDER : List (String × Nat) :=
  [("critical", 0), ("high", 1), ("medium", 2), ("low", 3), ("nice_to_have", 4)]

/-- `PRIORITY_ORDER[p] ?? 2`: unknown priorities rank as medium. -/
def priorityRank (p : String) : Nat :=
  (PRIORITY_ORDER.lookup p).getD 2

/-- The comparator of `sortTasksByPriority` as a relation: priority rank
first, stored `order` as tie-breaker. -/
def taskLE (a b : CTask) : Prop :=
  priorityRank a.priority < priorityRank b.priority ∨
    (priorityRank a.priority = priorityRank b.priority ∧ a.order ≤ b.order)

instance : DecidableRel taskLE := fun a b => by
  unfold taskLE; exact inferInstance

instance : IsTotal CTask taskLE :=
  ⟨fun a b => by unfold taskLE; omega⟩

instance : IsTrans CTask taskLE :=
  ⟨fun a b c hab hbc => by unfold taskLE at hab hbc ⊢; omega⟩

/-- `[...tasks].sort(comparator)`: a comparison sort by `taskLE`
(JS `Array.prototype.sort`, modelled as insertion sort). -/
def sortTasksByPriority (tasks : List CTask) : List CTask :=
  List.insertionSort taskLE tasks

/-- `sortedColumns`: every column's task array replaced by its
priority-sorted copy; this is what the board renders. -/
def sortedColumns (board : CBoard) : List CColumn :=
  board.columns.map fun c => { c with tasks := sortTasksByPriority c.tasks }

/-! ### Proof infrastructure -/

/-- Same-column shift of one sibling's `order` value, covering both
directions of the move (`o` = the mover's old order, `k` = the target). -/
def sameShift (o k u : Int) : Int :=
  if o < u ∧ u ≤ k then u - 1
  else if k ≤ u ∧ u < o then u + 1
  else u

/-- Pointwise description of the reorder transaction: the value each
stored task row takes after `applyReorderTx` (established by
`applyReorderTx_eq_map`). -/
def moveUpdate (task : Task) (col : Column) (k : Int) (now : Nat) (s : Task) :
    Task :=
  if s.id = task.id then
    { s with
      columnId := col.id
      order := k
      startDate :=
        if col.isStart && task.startDate.isNone then some now else task.startDate
      endDate :=
        if col.isEnd then some now
        else if task.endDate.isSome then none else task.endDate }
  else if task.columnId = col.id then
    if s.columnId = col.id then { s with order := sameShift task.order k s.order }
    else s
  else
    if s.columnId = task.columnId ∧ task.order < s.order then
      { s with order := s.order - 1 }
    else if s.columnId = col.id ∧ k ≤ s.order then
      { s with order := s.order + 1 }
    else s

/-- The final `task.update` map of the transaction, applied to an
already-shifted row `x` standing for the row with id `s.id`: only the id
is read, everything else is overwritten. -/
lemma replaceStep (task : Task) (col : Column) (k : Int) (D1 D2 : Option Nat)
    (x s : Task) (hx : x.id = s.id) :
    (if (x.id == task.id) = true then
      ({ x with columnId := col.id, order := k, startDate := D1, endDate := D2 } : Task)
     else x)
    = if s.id = task.id then
        ({ s with columnId := col.id, order := k, startDate := D1, endDate := D2 } : Task)
      else x := by
  by_cases h : s.id = task.id
  · rw [if_pos (by simp [hx, h]), if_pos h]
    cases x; cases s; simp_all
  · rw [if_neg (by simp [hx, h]), if_neg h]

lemma applyReorderTx_eq_map (tasks : List Task) (task : Task) (col : Column)
    (k : Int) (now : Nat) :
    applyReorderTx tasks task col k now = tasks.map (moveUpdate task col k now) := by
  unfold applyReorderTx
  dsimp only
  by_cases hsame : task.columnId = col.id
  · rw [if_pos (show (task.columnId == col.id) = true by simp [hsame])]
    rcases lt_trichotomy task.order k with hk | hk | hk
    · rw [if_pos (show k > task.order from hk), List.map_map]
      refine List.map_congr_left fun s _ => ?_
      dsimp only [Function.comp_apply]
      rw [replaceStep task col k _ _ _ s (by split_ifs <;> rfl)]
      by_cases hid : s.id = task.id
      · rw [if_pos hid]; simp only [moveUpdate, if_pos hid]
      · rw [if_neg hid]; simp only [moveUpdate, if_neg hid, if_pos hsame]
        obtain ⟨sid, scol, sord, ssd, sed⟩ := s
        simp only [sameShift, Bool.and_eq_true, beq_iff_eq, decide_eq_true_eq]
        split_ifs <;> simp_all <;> omega
    · rw [if_neg (show ¬ k > task.order by omega),
          if_neg (show ¬ k < task.order by omega)]
      refine List.map_congr_left fun s _ => ?_
      rw [replaceStep task col k _ _ _ s rfl]
      by_cases hid : s.id = task.id
      · rw [if_pos hid]; simp only [moveUpdate, if_pos hid]
      · rw [if_neg hid]; simp only [moveUpdate, if_neg hid, if_pos hsame]
        obtain ⟨sid, scol, sord, ssd, sed⟩ := s
        simp only [sameShift]
        split_ifs <;> simp_all <;> omega
    · rw [if_neg (show ¬ k > task.order by omega),
          if_pos (show k < task.order from hk), List.map_map]
      refine List.map_congr_left fun s _ => ?_
      dsimp only [Function.comp_apply]
      rw [replaceStep task col k _ _ _ s (by split_ifs <;> rfl)]
      by_cases hid : s.id = task.id
      · rw [if_pos hid]; simp only [moveUpdate, if_pos hid]
      · rw [if_neg hid]; simp only [moveUpdate, if_neg hid, if_pos hsame]
        obtain ⟨sid, scol, sord, ssd, sed⟩ := s
        simp only [sameShift, Bool.and_eq_true, beq_iff_eq, decide_eq_true_eq]
        split_ifs <;> simp_all <;> omega
  · rw [if_neg (show ¬ (task.columnId == col.id) = true by simp [hsame]),
        List.map_map, List.map_map]
    refine List.map_congr_left fun s _ => ?_
    dsimp only [Function.comp_apply]
    rw [replaceStep task col k _ _ _ s (by split_ifs <;> rfl)]
    by_cases hid : s.id = task.id
    · rw [if_pos hid]; simp only [moveUpdate, if_pos hid]
    · rw [if_neg hid]; simp only [moveUpdate, if_neg hid, if_neg hsame]
      obtain ⟨sid, scol, sord, ssd, sed⟩ := s
      simp only [Bool.and_eq_true, beq_iff_eq, decide_eq_true_eq]
      split_ifs <;> simp_all <;> omega

lemma mem_rangeInt {v : Int} {n : Nat} : v ∈ rangeInt n ↔ 0 ≤ v ∧ v < n := by
  simp only [rangeInt, List.mem_map, List.mem_range]
  constructor
  · rintro ⟨i, hi, rfl⟩; constructor <;> omega
  · rintro ⟨h0, hn⟩; exact ⟨v.toNat, by omega, by omega⟩

lemma length_rangeInt (n : Nat) : (rangeInt n).length = n := by
  unfold rangeInt; rw [List.length_map, List.length_range]

lemma nodup_rangeInt (n : Nat) : (rangeInt n).Nodup := by
  unfold rangeInt
  refine List.Nodup.map ?_ (List.nodup_range n)
  intro a b h
  simp only [] at h
  exact_mod_cast h

lemma dense_of_nodup_bounded {L : List Int} (n : Nat)
    (hnd : L.Nodup) (hb : ∀ v ∈ L, 0 ≤ v ∧ v < n) (hl : L.length = n) :
    dense L := by
  unfold dense
  rw [hl]
  refine (List.subperm_of_subset hnd fun v hv => ?_).perm_of_length_le ?_
  · exact mem_rangeInt.2 (hb v hv)
  · rw [length_rangeInt, hl]

lemma dense.nodup {L : List Int} (h : dense L) : L.Nodup :=
  h.nodup_iff.2 (nodup_rangeInt _)

lemma dense.bounds {L : List Int} (h : dense L) {v : Int} (hv : v ∈ L) :
    0 ≤ v ∧ v < L.length :=
  mem_rangeInt.1 (h.mem_iff.1 hv)

lemma nodup_tasks {tasks : List Task} (h : WFTasks tasks) : tasks.Nodup :=
  List.Nodup.of_map _ h

lemma id_inj {tasks : List Task} (h : WFTasks tasks) {x y : Task}
    (hx : x ∈ tasks) (hy : y ∈ tasks) (hxy : x.id = y.id) : x = y :=
  List.inj_on_of_nodup_map h hx hy hxy

lemma find?_id_of_mem {tasks : List Task} (h : WFTasks tasks) {s : Task}
    (hs : s ∈ tasks) : tasks.find? (fun t => t.id == s.id) = some s := by
  have hsome : (tasks.find? (fun t => t.id == s.id)).isSome :=
    List.find?_isSome.2 ⟨s, hs, by simp⟩
  obtain ⟨x, hx⟩ := Option.isSome_iff_exists.1 hsome
  have hxm : x ∈ tasks := List.mem_of_find?_eq_some hx
  have hxid : x.id = s.id := by simpa using List.find?_some hx
  rw [hx, id_inj h hxm hs hxid]

lemma find?_map_id {f : Task → Task} (hf : ∀ x, (f x).id = x.id)
    (tasks : List Task) (sid : String) :
    (tasks.map f).find? (fun t => t.id == sid) =
      (tasks.find? (fun t => t.id == sid)).map f := by
  induction tasks with
  | nil => rfl
  | cons x xs ih =>
    simp only [List.map_cons, List.find?_cons]
    rw [hf x]
    cases h : (x.id == sid) <;> simp [h, ih]

lemma order_inj_in_col {tasks : List Task} (hInv : InvariantTasks tasks)
    {x y : Task} (hx : x ∈ tasks) (hy : y ∈ tasks)
    (hcol : x.columnId = y.columnId) (hord : x.order = y.order) : x = y := by
  have hnd := dense.nodup (hInv y.columnId)
  unfold columnOrders at hnd
  exact List.inj_on_of_nodup_map hnd
    (List.mem_filter.2 ⟨hx, by simp [hcol]⟩)
    (List.mem_filter.2 ⟨hy, by simp⟩) hord

lemma order_bounds {tasks : List Task} (hInv : InvariantTasks tasks)
    {s : Task} (hs : s ∈ tasks) :
    0 ≤ s.order ∧ s.order < (columnOrders tasks s.columnId).length := by
  refine dense.bounds (hInv s.columnId) ?_
  unfold columnOrders
  exact List.mem_map.2 ⟨s, List.mem_filter.2 ⟨hs, by simp⟩, rfl⟩

lemma all_eq_singleton {α : Type} {l : List α} {a : α} (hnd : l.Nodup)
    (ha : a ∈ l) (hall : ∀ x ∈ l, x = a) : l = [a] := by
  cases l with
  | nil => cases ha
  | cons x xs =>
    have hxa : x = a := hall x (by simp)
    subst hxa
    cases xs with
    | nil => rfl
    | cons y ys =>
      have hya : y = x := hall y (by simp)
      subst hya
      simp at hnd

lemma filter_id_eq_singleton {tasks : List Task} (hWF : WFTasks tasks)
    {t : Task} (ht : t ∈ tasks) :
    tasks.filter (fun s => s.id == t.id) = [t] := by
  refine all_eq_singleton ((nodup_tasks hWF).filter _)
    (List.mem_filter.2 ⟨ht, by simp⟩) ?_
  intro x hx
  obtain ⟨hxm, hxid⟩ := List.mem_filter.1 hx
  exact id_inj hWF hxm ht (by simpa using hxid)

lemma length_filter_add {α : Type} (l : List α) (p : α → Bool) :
    (l.filter p).length + (l.filter (fun x => !(p x))).length = l.length := by
  induction l with
  | nil => rfl
  | cons x xs ih => by_cases h : p x <;> simp [h] <;> omega

lemma length_filter_or_disjoint {α : Type} (l : List α) (p q : α → Bool)
    (h : ∀ x ∈ l, ¬(p x = true ∧ q x = true)) :
    (l.filter (fun x => p x || q x)).length =
      (l.filter p).length + (l.filter q).length := by
  induction l with
  | nil => rfl
  | cons x xs ih =>
    have hx := h x (by simp)
    have ih' := ih (fun y hy => h y (by simp [hy]))
    by_cases hp : p x
    · by_cases hq : q x
      · exact absurd ⟨hp, hq⟩ hx
      · simp [hp, hq, ih']; omega
    · by_cases hq : q x <;> simp [hp, hq, ih'] <;> omega

lemma columnOrders_map (tasks : List Task) (F : Task → Task) (cid : String) :
    columnOrders (tasks.map F) cid =
      (tasks.filter (fun s => ((F s).columnId == cid))).map (fun s => (F s).order) := by
  unfold columnOrders
  rw [List.filter_map, List.map_map]
  rfl

lemma moveUpdate_mover {t : Task} {col : Column} {k : Int} {now : Nat} {s : Task}
    (hid : s.id = t.id) :
    (moveUpdate t col k now s).columnId = col.id ∧ (moveUpdate t col k now s).order = k := by
  simp [moveUpdate, hid]

lemma moveUpdate_same_shift {t : Task} {col : Column} {k : Int} {now : Nat} {s : Task}
    (hid : ¬ s.id = t.id) (hsame : t.columnId = col.id) (hc : s.columnId = col.id) :
    (moveUpdate t col k now s).columnId = s.columnId ∧
      (moveUpdate t col k now s).order = sameShift t.order k s.order := by
  simp [moveUpdate, hid, hsame, hc]

lemma moveUpdate_same_keep {t : Task} {col : Column} {k : Int} {now : Nat} {s : Task}
    (hid : ¬ s.id = t.id) (hsame : t.columnId = col.id) (hc : ¬ s.columnId = col.id) :
    moveUpdate t col k now s = s := by
  simp [moveUpdate, hid, hsame, hc]

/-- Same-column move: the dense invariant is preserved for every
container when the target index lies in `[0, n-1]`. -/
lemma preserve_same {tasks : List Task} {t : Task} {col : Column} {k : Int}
    (now : Nat) (hWF : WFTasks tasks) (hInv : InvariantTasks tasks)
    (ht : t ∈ tasks) (hsame : t.columnId = col.id)
    (hk0 : 0 ≤ k) (hkn : k < (columnOrders tasks col.id).length) :
    InvariantTasks (applyReorderTx tasks t col k now) := by
  rw [applyReorderTx_eq_map]
  intro cid
  rw [columnOrders_map]
  have hob : 0 ≤ t.order ∧ t.order < (columnOrders tasks col.id).length := by
    have := order_bounds hInv ht
    rwa [hsame] at this
  by_cases hcid : cid = col.id
  · subst hcid
    have hpred : ∀ s ∈ tasks,
        ((moveUpdate t col k now s).columnId == col.id) = (s.columnId == col.id) := by
      intro s hs
      by_cases hid : s.id = t.id
      · obtain rfl : s = t := id_inj hWF hs ht hid
        simp [(moveUpdate_mover rfl).1, hsame]
      · by_cases hc : s.columnId = col.id
        · simp [(moveUpdate_same_shift hid hsame hc).1]
        · simp [moveUpdate_same_keep hid hsame hc]
    rw [List.filter_congr hpred]
    have hlen : (columnOrders tasks col.id).length =
        (tasks.filter (fun s => s.columnId == col.id)).length := by
      unfold columnOrders; rw [List.length_map]
    refine dense_of_nodup_bounded ((columnOrders tasks col.id).length) ?_ ?_ ?_
    · refine List.Nodup.map_on ?_ ((nodup_tasks hWF).filter _)
      intro x hx y hy hxy
      obtain ⟨hxm, hxc⟩ := List.mem_filter.1 hx
      obtain ⟨hym, hyc⟩ := List.mem_filter.1 hy
      replace hxc : x.columnId = col.id := by simpa using hxc
      replace hyc : y.columnId = col.id := by simpa using hyc
      have hxb := order_bounds hInv hxm
      have hyb := order_bounds hInv hym
      rw [hxc] at hxb
      rw [hyc] at hyb
      by_cases hxid : x.id = t.id <;> by_cases hyid : y.id = t.id
      · exact (id_inj hWF hxm ht hxid).trans (id_inj hWF hym ht hyid).symm
      · have hxt : x = t := id_inj hWF hxm ht hxid
        rw [hxt, (moveUpdate_mover rfl).2,
            (moveUpdate_same_shift hyid hsame hyc).2] at hxy
        have hyo : ¬ y.order = t.order := fun h =>
          hyid (congrArg Task.id (order_inj_in_col hInv hym ht (hyc.trans hsame.symm) h))
        exfalso
        unfold sameShift at hxy
        split_ifs at hxy <;> omega
      · have hyt : y = t := id_inj hWF hym ht hyid
        rw [hyt, (moveUpdate_mover rfl).2,
            (moveUpdate_same_shift hxid hsame hxc).2] at hxy
        have hxo : ¬ x.order = t.order := fun h =>
          hxid (congrArg Task.id (order_inj_in_col hInv hxm ht (hxc.trans hsame.symm) h))
        exfalso
        unfold sameShift at hxy
        split_ifs at hxy <;> omega
      · rw [(moveUpdate_same_shift hxid hsame hxc).2,
            (moveUpdate_same_shift hyid hsame hyc).2] at hxy
        refine order_inj_in_col hInv hxm hym (hxc.trans hyc.symm) ?_
        have hxo : ¬ x.order = t.order := fun h =>
          hxid (congrArg Task.id (order_inj_in_col hInv hxm ht (hxc.trans hsame.symm) h))
        have hyo : ¬ y.order = t.order := fun h =>
          hyid (congrArg Task.id (order_inj_in_col hInv hym ht (hyc.trans hsame.symm) h))
        unfold sameShift at hxy
        split_ifs at hxy <;> omega
    · intro v hv
      obtain ⟨s, hsb, rfl⟩ := List.mem_map.1 hv
      obtain ⟨hsm, hsc⟩ := List.mem_filter.1 hsb
      replace hsc : s.columnId = col.id := by simpa using hsc
      have hsb2 := order_bounds hInv hsm
      rw [hsc] at hsb2
      by_cases hid : s.id = t.id
      · rw [(moveUpdate_mover hid).2]
        omega
      · rw [(moveUpdate_same_shift hid hsame hsc).2]
        unfold sameShift
        split_ifs <;> constructor <;> omega
    · rw [List.length_map, ← hlen]
  · have hpred : ∀ s ∈ tasks,
        ((moveUpdate t col k now s).columnId == cid) = (s.columnId == cid) := by
      intro s hs
      by_cases hid : s.id = t.id
      · have hst : s = t := id_inj hWF hs ht hid
        rw [hst, (moveUpdate_mover rfl).1, hsame]
      · by_cases hc : s.columnId = col.id
        · simp [(moveUpdate_same_shift hid hsame hc).1]
        · simp [moveUpdate_same_keep hid hsame hc]
    rw [List.filter_congr hpred]
    have hmap : (tasks.filter (fun s => s.columnId == cid)).map
          (fun s => (moveUpdate t col k now s).order) =
        columnOrders tasks cid := by
      unfold columnOrders
      refine List.map_congr_left fun s hs => ?_
      obtain ⟨hsm, hsc⟩ := List.mem_filter.1 hs
      replace hsc : s.columnId = cid := by simpa using hsc
      have hsc2 : ¬ s.columnId = col.id := by rw [hsc]; exact hcid
      have hid : ¬ s.id = t.id := fun h => by
        obtain rfl : s = t := id_inj hWF hsm ht h
        exact hsc2 hsame
      rw [moveUpdate_same_keep hid hsame hsc2]
    rw [hmap]
    exact hInv cid

lemma length_filter_and_split {α : Type} (l : List α) (q p : α → Bool) :
    (l.filter (fun x => q x && p x)).length +
      (l.filter (fun x => q x && !(p x))).length = (l.filter q).length := by
  induction l with
  | nil => rfl
  | cons x xs ih =>
    by_cases hq : q x <;> by_cases hp : p x <;> simp [hq, hp] <;> omega

lemma moveUpdate_cross {t : Task} {col : Column} {k : Int} {now : Nat} {s : Task}
    (hid : ¬ s.id = t.id) (hcross : ¬ t.columnId = col.id) :
    (moveUpdate t col k now s).columnId = s.columnId ∧
      (moveUpdate t col k now s).order =
        (if s.columnId = t.columnId ∧ t.order < s.order then s.order - 1
         else if s.columnId = col.id ∧ k ≤ s.order then s.order + 1
         else s.order) := by
  simp only [moveUpdate, if_neg hid, if_neg hcross]
  split_ifs <;> simp_all

/-- Cross-column move: the dense invariant is preserved for every
container when the target index lies in `[0, destination length]`. -/
lemma preserve_cross {tasks : List Task} {t : Task} {col : Column} {k : Int}
    (now : Nat) (hWF : WFTasks tasks) (hInv : InvariantTasks tasks)
    (ht : t ∈ tasks) (hcross : ¬ t.columnId = col.id)
    (hk0 : 0 ≤ k) (hkn : k ≤ (columnOrders tasks col.id).length) :
    InvariantTasks (applyReorderTx tasks t col k now) := by
  rw [applyReorderTx_eq_map]
  intro cid
  rw [columnOrders_map]
  have hob := order_bounds hInv ht
  by_cases hdst : cid = col.id
  · subst hdst
    have hpred : ∀ s ∈ tasks,
        ((moveUpdate t col k now s).columnId == col.id) =
          ((s.id == t.id) || (s.columnId == col.id)) := by
      intro s hs
      by_cases hid : s.id = t.id
      · have hst : s = t := id_inj hWF hs ht hid
        rw [hst, (moveUpdate_mover rfl).1]
        simp
      · rw [(moveUpdate_cross hid hcross).1]
        simp [hid]
    rw [List.filter_congr hpred]
    have hdisj : ∀ x ∈ tasks, ¬((x.id == t.id) = true ∧ (x.columnId == col.id) = true) := by
      rintro x hx ⟨h1, h2⟩
      have hxt : x = t := id_inj hWF hx ht (by simpa using h1)
      rw [hxt] at h2
      exact hcross (by simpa using h2)
    have hlen1 : (tasks.filter (fun s => s.id == t.id)).length = 1 := by
      rw [filter_id_eq_singleton hWF ht]; rfl
    have hlen2 : (tasks.filter (fun s => s.columnId == col.id)).length =
        (columnOrders tasks col.id).length := by
      unfold columnOrders; rw [List.length_map]
    refine dense_of_nodup_bounded ((columnOrders tasks col.id).length + 1) ?_ ?_ ?_
    · refine List.Nodup.map_on ?_ ((nodup_tasks hWF).filter _)
      intro x hx y hy hxy
      obtain ⟨hxm, hxp⟩ := List.mem_filter.1 hx
      obtain ⟨hym, hyp⟩ := List.mem_filter.1 hy
      by_cases hxid : x.id = t.id <;> by_cases hyid : y.id = t.id
      · exact (id_inj hWF hxm ht hxid).trans (id_inj hWF hym ht hyid).symm
      · have hyc : y.columnId = col.id := by
          rcases Bool.or_eq_true_iff.1 hyp with h | h
          · exact absurd (by simpa using h) hyid
          · simpa using h
        have hyb := order_bounds hInv hym
        rw [hyc] at hyb
        have hxt : x = t := id_inj hWF hxm ht hxid
        rw [hxt, (moveUpdate_mover rfl).2, (moveUpdate_cross hyid hcross).2] at hxy
        have hyc2 : ¬ y.columnId = t.columnId := by rw [hyc]; exact fun h => hcross h.symm
        exfalso
        split_ifs at hxy <;> simp_all <;> omega
      · have hxc : x.columnId = col.id := by
          rcases Bool.or_eq_true_iff.1 hxp with h | h
          · exact absurd (by simpa using h) hxid
          · simpa using h
        have hxb := order_bounds hInv hxm
        rw [hxc] at hxb
        have hyt : y = t := id_inj hWF hym ht hyid
        rw [hyt, (moveUpdate_mover rfl).2, (moveUpdate_cross hxid hcross).2] at hxy
        have hxc2 : ¬ x.columnId = t.columnId := by rw [hxc]; exact fun h => hcross h.symm
        exfalso
        split_ifs at hxy <;> simp_all <;> omega
      · have hxc : x.columnId = col.id := by
          rcases Bool.or_eq_true_iff.1 hxp with h | h
          · exact absurd (by simpa using h) hxid
          · simpa using h
        have hyc : y.columnId = col.id := by
          rcases Bool.or_eq_true_iff.1 hyp with h | h
          · exact absurd (by simpa using h) hyid
          · simpa using h
        have hxc2 : ¬ x.columnId = t.columnId := by rw [hxc]; exact fun h => hcross h.symm
        have hyc2 : ¬ y.columnId = t.columnId := by rw [hyc]; exact fun h => hcross h.symm
        rw [(moveUpdate_cross hxid hcross).2, (moveUpdate_cross hyid hcross).2] at hxy
        refine order_inj_in_col hInv hxm hym (hxc.trans hyc.symm) ?_
        split_ifs at hxy <;> simp_all <;> omega
    · intro v hv
      obtain ⟨s, hsb, rfl⟩ := List.mem_map.1 hv
      obtain ⟨hsm, hsp⟩ := List.mem_filter.1 hsb
      by_cases hid : s.id = t.id
      · have hst : s = t := id_inj hWF hsm ht hid
        rw [hst, (moveUpdate_mover rfl).2]
        omega
      · have hsc : s.columnId = col.id := by
          rcases Bool.or_eq_true_iff.1 hsp with h | h
          · exact absurd (by simpa using h) hid
          · simpa using h
        have hsb2 := order_bounds hInv hsm
        rw [hsc] at hsb2
        have hsc2 : ¬ s.columnId = t.columnId := by rw [hsc]; exact fun h => hcross h.symm
        rw [(moveUpdate_cross hid hcross).2]
        split_ifs <;> simp_all <;> omega
    · rw [List.length_map,
        length_filter_or_disjoint tasks _ _ hdisj, hlen1, hlen2]
      omega
  · by_cases hsrc : cid = t.columnId
    · subst hsrc
      have hpred : ∀ s ∈ tasks,
        ((moveUpdate t col k now s).columnId == t.columnId) =
          ((s.columnId == t.columnId) && !(s.id == t.id)) := by
        intro s hs
        by_cases hid : s.id = t.id
        · have hst : s = t := id_inj hWF hs ht hid
          rw [hst, (moveUpdate_mover rfl).1]
          simp
          exact fun h => hcross h.symm
        · rw [(moveUpdate_cross hid hcross).1]
          simp [hid]
      rw [List.filter_congr hpred]
      have hcongr : ∀ s ∈ tasks,
          ((s.columnId == t.columnId) && (s.id == t.id)) = (s.id == t.id) := by
        intro s hs
        by_cases hid : s.id = t.id
        · have hst : s = t := id_inj hWF hs ht hid
          simp [hst]
        · simp [hid]
      have hsingle : tasks.filter (fun s => (s.columnId == t.columnId) && (s.id == t.id)) =
          [t] := by
        rw [List.filter_congr hcongr]
        exact filter_id_eq_singleton hWF ht
      have hlen : (tasks.filter (fun s => (s.columnId == t.columnId) && !(s.id == t.id))).length
          = (columnOrders tasks t.columnId).length - 1 := by
        have := length_filter_and_split tasks
          (fun s => s.columnId == t.columnId) (fun s => s.id == t.id)
        rw [hsingle] at this
        simp only [List.length_singleton] at this
        have h2 : (tasks.filter (fun s => s.columnId == t.columnId)).length =
            (columnOrders tasks t.columnId).length := by
          unfold columnOrders; rw [List.length_map]
        omega
      refine dense_of_nodup_bounded ((columnOrders tasks t.columnId).length - 1) ?_ ?_ ?_
      · refine List.Nodup.map_on ?_ ((nodup_tasks hWF).filter _)
        intro x hx y hy hxy
        obtain ⟨hxm, hxp⟩ := List.mem_filter.1 hx
        obtain ⟨hym, hyp⟩ := List.mem_filter.1 hy
        obtain ⟨hxc, hxid⟩ : x.columnId = t.columnId ∧ ¬ x.id = t.id := by
          have := Bool.and_eq_true_iff.1 hxp
          constructor
          · simpa using this.1
          · simpa using this.2
        obtain ⟨hyc, hyid⟩ : y.columnId = t.columnId ∧ ¬ y.id = t.id := by
          have := Bool.and_eq_true_iff.1 hyp
          constructor
          · simpa using this.1
          · simpa using this.2
        have hxb := order_bounds hInv hxm
        have hyb := order_bounds hInv hym
        rw [hxc] at hxb
        rw [hyc] at hyb
        have hxo : ¬ x.order = t.order := fun h =>
          hxid (congrArg Task.id (order_inj_in_col hInv hxm ht hxc h))
        have hyo : ¬ y.order = t.order := fun h =>
          hyid (congrArg Task.id (order_inj_in_col hInv hym ht hyc h))
        have hxc2 : ¬ x.columnId = col.id := by rw [hxc]; exact hcross
        have hyc2 : ¬ y.columnId = col.id := by rw [hyc]; exact hcross
        rw [(moveUpdate_cross hxid hcross).2, (moveUpdate_cross hyid hcross).2] at hxy
        refine order_inj_in_col hInv hxm hym (hxc.trans hyc.symm) ?_
        split_ifs at hxy <;> simp_all <;> omega
      · intro v hv
        obtain ⟨s, hsb, rfl⟩ := List.mem_map.1 hv
        obtain ⟨hsm, hsp⟩ := List.mem_filter.1 hsb
        obtain ⟨hsc, hsid⟩ : s.columnId = t.columnId ∧ ¬ s.id = t.id := by
          have := Bool.and_eq_true_iff.1 hsp
          constructor
          · simpa using this.1
          · simpa using this.2
        have hsb2 := order_bounds hInv hsm
        rw [hsc] at hsb2
        have hso : ¬ s.order = t.order := fun h =>
          hsid (congrArg Task.id (order_inj_in_col hInv hsm ht hsc h))
        have hsc2 : ¬ s.columnId = col.id := by rw [hsc]; exact hcross
        rw [(moveUpdate_cross hsid hcross).2]
        split_ifs <;> simp_all <;> omega
      · rw [List.length_map, hlen]
    · have hpred : ∀ s ∈ tasks,
          ((moveUpdate t col k now s).columnId == cid) = (s.columnId == cid) := by
        intro s hs
        by_cases hid : s.id = t.id
        · have hst : s = t := id_inj hWF hs ht hid
          rw [hst, (moveUpdate_mover rfl).1]
          have h1 : ¬ col.id = cid := fun h => hdst h.symm
          have h2 : ¬ t.columnId = cid := fun h => hsrc h.symm
          simp [h1, h2]
        · rw [(moveUpdate_cross hid hcross).1]
      rw [List.filter_congr hpred]
      have hmap : (tasks.filter (fun s => s.columnId == cid)).map
            (fun s => (moveUpdate t col k now s).order) =
          columnOrders tasks cid := by
        unfold columnOrders
        refine List.map_congr_left fun s hs => ?_
        obtain ⟨hsm, hsc⟩ := List.mem_filter.1 hs
        replace hsc : s.columnId = cid := by simpa using hsc
        have hid : ¬ s.id = t.id := fun h => by
          have hst : s = t := id_inj hWF hsm ht h
          rw [hst] at hsc
          exact hsrc hsc.symm
        rw [(moveUpdate_cross hid hcross).2]
        have h1 : ¬ s.columnId = t.columnId := by rw [hsc]; exact hsrc
        have h2 : ¬ s.columnId = col.id := by rw [hsc]; exact hdst
        simp [h1, h2]
      rw [hmap]
      exact hInv cid

/-- The handler preserves the dense invariant whenever the target index
is in `[0, n-1]` for a same-column move and `[0, n]` for a cross-column
move; requests that fail validation or lookup leave the store unchanged. -/
lemma reorderPOST_preserves {db : DB} {req : ReorderRequest} {now : Nat}
    (hWF : WFTasks db.tasks) (hInv : InvariantTasks db.tasks)
    (hrange : ∀ t col, findTask db.tasks (req.taskId.getD "") = some t →
      findColumn db.columns (req.columnId.getD "") = some col →
      (if t.columnId = col.id
       then 0 ≤ req.newOrder.getD 0 ∧
         req.newOrder.getD 0 < (columnOrders db.tasks col.id).length
       else 0 ≤ req.newOrder.getD 0 ∧
         req.newOrder.getD 0 ≤ (columnOrders db.tasks col.id).length)) :
    InvariantTasks (reorderPOST db req now).2.tasks := by
  unfold reorderPOST
  dsimp only
  split_ifs with hval
  · exact hInv
  · rcases hft : findTask db.tasks (req.taskId.getD "") with _ | t
    · exact hInv
    · rcases hfc : findColumn db.columns (req.columnId.getD "") with _ | col
      · exact hInv
      · dsimp only
        have ht : t ∈ db.tasks := List.mem_of_find?_eq_some hft
        have hr := hrange t col hft hfc
        by_cases hsame : t.columnId = col.id
        · rw [if_pos hsame] at hr
          exact preserve_same now hWF hInv ht hsame hr.1 (by exact_mod_cast hr.2)
        · rw [if_neg hsame] at hr
          exact preserve_cross now hWF hInv ht hsame hr.1 (by exact_mod_cast hr.2)

/-- The columns-reorder route: when the id list is a permutation of the
board's column ids, the column `order` values end up dense. -/
lemma applyColumnOrders_dense {cols : List Column} {ids : List String}
    (hnd : (cols.map (fun c => c.id)).Nodup)
    (hperm : ids.Perm (cols.map (fun c => c.id))) :
    dense ((applyColumnOrders cols ids).map (fun c => c.order)) := by
  unfold applyColumnOrders
  rw [List.map_map]
  have hlen : ids.length = cols.length := by
    rw [hperm.length_eq, List.length_map]
  have hfind : ∀ c ∈ cols, ∃ i, ∃ h : i < ids.length,
      ids.findIdx? (fun x => x == c.id) = some i ∧ ids.get ⟨i, h⟩ = c.id := by
    intro c hc
    have hmem : c.id ∈ ids := hperm.mem_iff.2 (List.mem_map.2 ⟨c, hc, rfl⟩)
    have hsome : (ids.findIdx? (fun x => x == c.id)).isSome := by
      rw [List.findIdx?_isSome]
      exact List.any_eq_true.2 ⟨c.id, hmem, by simp⟩
    obtain ⟨i, hi⟩ := Option.isSome_iff_exists.1 hsome
    obtain ⟨hlt, hp, _⟩ := List.findIdx?_eq_some_iff_getElem.1 hi
    exact ⟨i, hlt, hi, by simpa using hp⟩
  refine dense_of_nodup_bounded cols.length ?_ ?_ ?_
  · refine List.Nodup.map_on ?_ (List.Nodup.of_map _ hnd)
    intro x hx y hy hxy
    obtain ⟨ix, hixl, hix, hixg⟩ := hfind x hx
    obtain ⟨iy, hiyl, hiy, hiyg⟩ := hfind y hy
    dsimp only [Function.comp_apply] at hxy
    rw [hix] at hxy
    rw [hiy] at hxy
    dsimp only at hxy
    have hii : ix = iy := by exact_mod_cast hxy
    subst hii
    refine List.inj_on_of_nodup_map hnd hx hy ?_
    rw [← hixg, ← hiyg]
  · intro v hv
    obtain ⟨c, hc, rfl⟩ := List.mem_map.1 hv
    obtain ⟨i, hil, hi, _⟩ := hfind c hc
    rw [Function.comp_apply, hi]
    dsimp only
    omega
  · rw [List.length_map]

lemma dense_nil : dense ([] : List Int) :=
  List.Perm.refl _

/-- A concrete store whose tasks all live in listed containers is
invariant as soon as each listed container is dense. -/
lemma invariant_of_cols (tasks : List Task) (used : List String)
    (hused : ∀ t ∈ tasks, t.columnId ∈ used)
    (hdense : ∀ cid ∈ used, dense (columnOrders tasks cid)) :
    InvariantTasks tasks := by
  intro cid
  by_cases h : cid ∈ used
  · exact hdense cid h
  · have hz : columnOrders tasks cid = [] := by
      unfold columnOrders
      rw [List.filter_eq_nil_iff.2, List.map_nil]
      intro t htm
      simp only [beq_iff_eq]
      intro hc
      exact h (hc ▸ hused t htm)
    rw [hz]
    exact dense_nil

lemma moveUpdate_id (t : Task) (col : Column) (k : Int) (now : Nat) :
    ∀ x, (moveUpdate t col k now x).id = x.id := by
  intro x
  unfold moveUpdate
  split_ifs <;> rfl

/-- Looking up any pre-existing row after the transaction returns its
pointwise update. -/
lemma taskById_applyReorderTx {tasks : List Task} (hWF : WFTasks tasks)
    (t : Task) (col : Column) (k : Int) (now : Nat)
    {s : Task} (hs : s ∈ tasks) :
    taskById (applyReorderTx tasks t col k now) s.id =
      some (moveUpdate t col k now s) := by
  rw [applyReorderTx_eq_map]
  unfold taskById
  rw [find?_map_id (moveUpdate_id t col k now) tasks s.id, find?_id_of_mem hWF hs]
  rfl

lemma moveUpdate_mover_dates {t : Task} {col : Column} {k : Int} {now : Nat}
    {s : Task} (hid : s.id = t.id) :
    (moveUpdate t col k now s).startDate =
      (if col.isStart && t.startDate.isNone then some now else t.startDate) ∧
    (moveUpdate t col k now s).endDate =
      (if col.isEnd then some now
       else if t.endDate.isSome then none else t.endDate) := by
  simp [moveUpdate, hid]

/-! ### Claim theorems -/

/-- C1, counterexample: the claim allows any target index in
`[0, destination length]`, but for a same-column move the destination
length counts the moving task itself, and at target = length the
committed state is no longer dense.  Store: column `X` with tasks
`a(0), b(1)`; request: move `a` within `X` to index 2 (= `|X|`, in the
claim's range).  The result has order values `{2, 0}` — a gap at 1. -/
theorem c1_counterexample_same_column_target_len :
    (let db : DB := ⟨[⟨"X", 0, false, false⟩],
      [⟨"a", "X", 0, none, none⟩, ⟨"b", "X", 1, none, none⟩]⟩
     WFTasks db.tasks ∧ InvariantTasks db.tasks ∧
      (columnOrders db.tasks "X").length = 2 ∧
      columnOrders (reorderPOST db ⟨some "a", some "X", some 2⟩ 0).2.tasks "X" = [2, 0] ∧
      ¬ InvariantTasks (reorderPOST db ⟨some "a", some "X", some 2⟩ 0).2.tasks) := by
  refine ⟨by decide, ?_, rfl, rfl, ?_⟩
  · refine invariant_of_cols _ ["X"] (by decide) ?_
    intro cid hc
    rw [List.mem_singleton] at hc
    subst hc
    exact dense_of_nodup_bounded 2 (by decide) (by decide) rfl
  · intro hbad
    have hb := dense.bounds (hbad "X") (show (2 : Int) ∈ _ by decide)
    exact absurd hb.2 (by decide)

/-- C1, amended: both reorder operations preserve the dense invariant,
with the same-column range corrected to `[0, n-1]` (the claim's
`[0, destination length]` with the destination length counting the
moving task over-counts by one in the same-column case; the
cross-column range `[0, destination length]` stands).  First conjunct:
every `POST /api/tasks/reorder` call whose target index is in range —
and every call that fails validation or lookup — leaves every
container's task order values exactly `{0, 1, ..., n-1}`.  Second conjunct: a
columns-reorder call whose id list is a permutation of the board's
column ids leaves the columns' own order values dense. -/
theorem moveItem_moveContainer_preserve_dense :
    (∀ (db : DB) (req : ReorderRequest) (now : Nat),
      WFTasks db.tasks → InvariantTasks db.tasks →
      (∀ t col, findTask db.tasks (req.taskId.getD "") = some t →
        findColumn db.columns (req.columnId.getD "") = some col →
        (if t.columnId = col.id
         then 0 ≤ req.newOrder.getD 0 ∧
           req.newOrder.getD 0 < ((columnOrders db.tasks col.id).length : Int)
         else 0 ≤ req.newOrder.getD 0 ∧
           req.newOrder.getD 0 ≤ ((columnOrders db.tasks col.id).length : Int))) →
      InvariantTasks (reorderPOST db req now).2.tasks) ∧
    (∀ (cols : List Column) (ids : List String),
      (cols.map (fun c => c.id)).Nodup →
      ids.Perm (cols.map (fun c => c.id)) →
      dense ((applyColumnOrders cols ids).map (fun c => c.order))) :=
  ⟨fun _ _ _ hWF hInv hrange => reorderPOST_preserves hWF hInv hrange,
   fun _ _ hnd hperm => applyColumnOrders_dense hnd hperm⟩

/-- Witness for the amended C1 at concrete inputs: a same-column move of
`a` to index 1 in a two-task column, and a column swap. -/
theorem moveItem_moveContainer_preserve_dense_witness :
    InvariantTasks ((reorderPOST ⟨[⟨"X", 0, false, false⟩],
        [⟨"a", "X", 0, none, none⟩, ⟨"b", "X", 1, none, none⟩]⟩
      ⟨some "a", some "X", some 1⟩ 5).2.tasks) ∧
    dense ((applyColumnOrders
        [⟨"X", 0, false, false⟩, ⟨"Y", 1, false, false⟩] ["Y", "X"]).map
      (fun c => c.order)) := by
  constructor
  · refine moveItem_moveContainer_preserve_dense.1 _ _ 5 (by decide) ?_ ?_
    · refine invariant_of_cols _ ["X"] (by decide) ?_
      intro cid hc
      rw [List.mem_singleton] at hc
      subst hc
      exact dense_of_nodup_bounded 2 (by decide) (by decide) rfl
    · intro t col hft hfc
      have h1 : some t = some (⟨"a", "X", 0, none, none⟩ : Task) := hft.symm.trans rfl
      have h2 : some col = some (⟨"X", 0, false, false⟩ : Column) := hfc.symm.trans rfl
      obtain rfl := Option.some.inj h1
      obtain rfl := Option.some.inj h2
      rw [if_pos rfl]
      exact ⟨by decide, by decide⟩
  · exact moveItem_moveContainer_preserve_dense.2 _ _ (by decide)
      (List.Perm.swap _ _ _)

/-- C2: same-container shift semantics.  For a same-column move over any
store with distinct ids: the mover takes `order = k`; a sibling in the
column is decremented exactly when its order lies in `(oldIndex, k]`
(move down), incremented exactly when its order lies in `[k, oldIndex)`
(move up), and keeps its order otherwise; tasks of other columns keep
their order.  Second conjunct: the spec scenario — `X = [A(0), B(1),
C(2)]`, moving `B` to index 0 yields `B(0), A(1), C(2)`. -/
theorem reorder_sameColumn_shift_semantics :
    (∀ (tasks : List Task) (t : Task) (col : Column) (k : Int) (now : Nat),
      WFTasks tasks → t ∈ tasks → t.columnId = col.id →
      ((taskById (applyReorderTx tasks t col k now) t.id).map (fun x => x.order) =
          some k ∧
       ∀ s ∈ tasks, s.id ≠ t.id →
         (taskById (applyReorderTx tasks t col k now) s.id).map
             (fun x => (x.columnId, x.order)) =
           some (s.columnId,
             if s.columnId = col.id ∧ k > t.order ∧ t.order < s.order ∧ s.order ≤ k
             then s.order - 1
             else if s.columnId = col.id ∧ k < t.order ∧ k ≤ s.order ∧ s.order < t.order
             then s.order + 1
             else s.order))) ∧
    (applyReorderTx
        [⟨"A", "X", 0, none, none⟩, ⟨"B", "X", 1, none, none⟩,
         ⟨"C", "X", 2, none, none⟩]
        ⟨"B", "X", 1, none, none⟩ ⟨"X", 0, false, false⟩ 0 0 =
      [⟨"A", "X", 1, none, none⟩, ⟨"B", "X", 0, none, none⟩,
       ⟨"C", "X", 2, none, none⟩]) := by
  constructor
  · intro tasks t col k now hWF ht hsame
    constructor
    · rw [taskById_applyReorderTx hWF t col k now ht]
      simp [(moveUpdate_mover rfl).2]
    · intro s hs hid
      rw [taskById_applyReorderTx hWF t col k now hs]
      rw [show Option.map (fun x : Task => (x.columnId, x.order))
            (some (moveUpdate t col k now s)) =
          some ((moveUpdate t col k now s).columnId,
            (moveUpdate t col k now s).order) from rfl]
      by_cases hc : s.columnId = col.id
      · have h1 := @moveUpdate_same_shift t col k now s hid hsame hc
        rw [h1.1, h1.2]
        refine congrArg some (congrArg (Prod.mk s.columnId) ?_)
        unfold sameShift
        split_ifs <;> simp_all <;> omega
      · rw [@moveUpdate_same_keep t col k now s hid hsame hc]
        have h1 : ¬ (s.columnId = col.id ∧ k > t.order ∧ t.order < s.order ∧ s.order ≤ k) :=
          fun h => hc h.1
        have h2 : ¬ (s.columnId = col.id ∧ k < t.order ∧ k ≤ s.order ∧ s.order < t.order) :=
          fun h => hc h.1
        rw [if_neg h1, if_neg h2]
  · rfl

/-- Witness for C2: the `[A(0), B(1), C(2)]`, move `B` to 0 scenario,
read back through the general statement. -/
theorem reorder_sameColumn_shift_semantics_witness :
    (taskById (applyReorderTx
        [⟨"A", "X", 0, none, none⟩, ⟨"B", "X", 1, none, none⟩,
         ⟨"C", "X", 2, none, none⟩]
        ⟨"B", "X", 1, none, none⟩ ⟨"X", 0, false, false⟩ 0 0) "B").map
      (fun x => x.order) = some 0 := by
  have h := (reorder_sameColumn_shift_semantics.1
    [⟨"A", "X", 0, none, none⟩, ⟨"B", "X", 1, none, none⟩,
     ⟨"C", "X", 2, none, none⟩]
    ⟨"B", "X", 1, none, none⟩ ⟨"X", 0, false, false⟩ 0 0
    (by decide) (by decide) rfl).1
  exact h

/-- C3: cross-container shift semantics.  The mover ends at
`(destination, k)`; a source sibling is decremented exactly when its
order exceeds the mover's old order; a destination sibling is
incremented exactly when its order is `≥ k`; everything else keeps its
order.  Second conjunct: the spec scenario — `X = [A(0), B(1)]`,
`Y = [C(0)]`; moving `A` to `Y` index 1 yields `X = [B(0)]`,
`Y = [C(0), A(1)]`. -/
theorem reorder_crossColumn_shift_semantics :
    (∀ (tasks : List Task) (t : Task) (col : Column) (k : Int) (now : Nat),
      WFTasks tasks → t ∈ tasks → ¬ t.columnId = col.id →
      ((taskById (applyReorderTx tasks t col k now) t.id).map
          (fun x => (x.columnId, x.order)) = some (col.id, k) ∧
       ∀ s ∈ tasks, s.id ≠ t.id →
         (taskById (applyReorderTx tasks t col k now) s.id).map
             (fun x => (x.columnId, x.order)) =
           some (s.columnId,
             if s.columnId = t.columnId ∧ s.order > t.order then s.order - 1
             else if s.columnId = col.id ∧ s.order ≥ k then s.order + 1
             else s.order))) ∧
    (applyReorderTx
        [⟨"A", "X", 0, none, none⟩, ⟨"B", "X", 1, none, none⟩,
         ⟨"C", "Y", 0, none, none⟩]
        ⟨"A", "X", 0, none, none⟩ ⟨"Y", 1, false, false⟩ 1 0 =
      [⟨"A", "Y", 1, none, none⟩, ⟨"B", "X", 0, none, none⟩,
       ⟨"C", "Y", 0, none, none⟩]) := by
  constructor
  · intro tasks t col k now hWF ht hcross
    constructor
    · rw [taskById_applyReorderTx hWF t col k now ht]
      simp [(moveUpdate_mover rfl).1, (moveUpdate_mover rfl).2]
    · intro s hs hid
      rw [taskById_applyReorderTx hWF t col k now hs]
      rw [show Option.map (fun x : Task => (x.columnId, x.order))
            (some (moveUpdate t col k now s)) =
          some ((moveUpdate t col k now s).columnId,
            (moveUpdate t col k now s).order) from rfl]
      have h1 := @moveUpdate_cross t col k now s hid hcross
      rw [h1.1, h1.2]
  · rfl

/-- Witness for C3: the `X = [A(0), B(1)]`, `Y = [C(0)]`, move `A` to
`(Y, 1)` scenario read back through the general statement. -/
theorem reorder_crossColumn_shift_semantics_witness :
    (taskById (applyReorderTx
        [⟨"A", "X", 0, none, none⟩, ⟨"B", "X", 1, none, none⟩,
         ⟨"C", "Y", 0, none, none⟩]
        ⟨"A", "X", 0, none, none⟩ ⟨"Y", 1, false, false⟩ 1 0) "A").map
      (fun x => (x.columnId, x.order)) = some ("Y", 1) := by
  have h := (reorder_crossColumn_shift_semantics.1
    [⟨"A", "X", 0, none, none⟩, ⟨"B", "X", 1, none, none⟩,
     ⟨"C", "Y", 0, none, none⟩]
    ⟨"A", "X", 0, none, none⟩ ⟨"Y", 1, false, false⟩ 1 0
    (by decide) (by decide) (by decide)).1
  exact h

/-- C4: derived timestamps of a move.  Reading the moved task back after
the transaction: if the destination is exit-flagged, `endDate` is
(re-)stamped to `now` even if already set; otherwise a non-null stored
`endDate` is cleared to null; and `startDate` becomes `now` exactly when
the destination is entry-flagged and the stored value was null — a
non-null `startDate` is never changed by any move.  Last conjunct: a
move never touches any other task's dates, so no later move of any item
can change or clear them either. -/
theorem reorder_derived_timestamps :
    ∀ (tasks : List Task) (t : Task) (col : Column) (k : Int) (now : Nat),
      WFTasks tasks → t ∈ tasks →
      ((col.isEnd = true →
         (taskById (applyReorderTx tasks t col k now) t.id).map (fun x => x.endDate) =
           some (some now)) ∧
       (col.isEnd = false → t.endDate ≠ none →
         (taskById (applyReorderTx tasks t col k now) t.id).map (fun x => x.endDate) =
           some none) ∧
       ((taskById (applyReorderTx tasks t col k now) t.id).map (fun x => x.startDate) =
         some (if col.isStart = true ∧ t.startDate = none then some now
               else t.startDate)) ∧
       (t.startDate ≠ none →
         (taskById (applyReorderTx tasks t col k now) t.id).map (fun x => x.startDate) =
           some t.startDate) ∧
       (∀ s ∈ tasks, s.id ≠ t.id →
         (taskById (applyReorderTx tasks t col k now) s.id).map
             (fun x => (x.startDate, x.endDate)) =
           some (s.startDate, s.endDate))) := by
  intro tasks t col k now hWF ht
  have hsib : ∀ s ∈ tasks, s.id ≠ t.id →
      (taskById (applyReorderTx tasks t col k now) s.id).map
          (fun x => (x.startDate, x.endDate)) =
        some (s.startDate, s.endDate) := by
    intro s hs hid
    rw [taskById_applyReorderTx hWF t col k now hs]
    rw [show Option.map (fun x : Task => (x.startDate, x.endDate))
          (some (moveUpdate t col k now s)) =
        some ((moveUpdate t col k now s).startDate,
          (moveUpdate t col k now s).endDate) from rfl]
    have : (moveUpdate t col k now s).startDate = s.startDate ∧
        (moveUpdate t col k now s).endDate = s.endDate := by
      simp only [moveUpdate, if_neg hid]
      split_ifs <;> exact ⟨rfl, rfl⟩
    rw [this.1, this.2]
  rw [taskById_applyReorderTx hWF t col k now ht]
  have hd := @moveUpdate_mover_dates t col k now t rfl
  refine ⟨?_, ?_, ?_, ?_, hsib⟩
  · intro hEnd
    rw [show Option.map (fun x : Task => x.endDate) (some (moveUpdate t col k now t)) =
        some (moveUpdate t col k now t).endDate from rfl, hd.2, if_pos hEnd]
  · intro hEnd hne
    rw [show Option.map (fun x : Task => x.endDate) (some (moveUpdate t col k now t)) =
        some (moveUpdate t col k now t).endDate from rfl, hd.2, if_neg (by simp [hEnd]),
      if_pos (Option.isSome_iff_ne_none.2 hne)]
  · rw [show Option.map (fun x : Task => x.startDate) (some (moveUpdate t col k now t)) =
        some (moveUpdate t col k now t).startDate from rfl, hd.1]
    rcases hS : col.isStart <;> rcases hsd : t.startDate with _ | d <;>
      simp [hS, hsd]
  · intro hne
    rw [show Option.map (fun x : Task => x.startDate) (some (moveUpdate t col k now t)) =
        some (moveUpdate t col k now t).startDate from rfl, hd.1,
      if_neg (by simp [Option.isNone_iff_eq_none, hne])]

/-- Witness for C4: moving task `a` (with `startDate` already set and a
stale `endDate`) into the exit-flagged column `Y` re-stamps `endDate`
and keeps `startDate`. -/
theorem reorder_derived_timestamps_witness :
    ((⟨"Y", 1, false, true⟩ : Column).isEnd = true →
      (taskById (applyReorderTx
          [⟨"a", "X", 0, some 3, some 4⟩] ⟨"a", "X", 0, some 3, some 4⟩
          ⟨"Y", 1, false, true⟩ 0 9) "a").map (fun x => x.endDate) =
        some (some 9)) ∧
    ((taskById (applyReorderTx
        [⟨"a", "X", 0, some 3, some 4⟩] ⟨"a", "X", 0, some 3, some 4⟩
        ⟨"Y", 1, false, true⟩ 0 9) "a").map (fun x => x.startDate) =
      some (some 3)) := by
  have h := reorder_derived_timestamps
    [⟨"a", "X", 0, some 3, some 4⟩] ⟨"a", "X", 0, some 3, some 4⟩
    ⟨"Y", 1, false, true⟩ 0 9 (by decide) (by decide)
  exact ⟨fun _ => h.1 rfl, h.2.2.2.1 (by decide)⟩

/-- C9: round trip.  Containers `X = [a(0), b(1), c(2)]` and
`Y = [d(0), e(1)]`, with arbitrary workflow flags on both columns and
arbitrary stored timestamps on every task: calling the reorder handler
to move `a` to `(Y, 2)` and then back to `(X, 0)` restores `X`'s
original ordering — the same ids in the same sequence with the same
dense order values `0, 1, 2`. -/
theorem moveItem_round_trip (fXs fXe fYs fYe : Bool)
    (dA1 dB1 dC1 dD1 dE1 dA2 dB2 dC2 dD2 dE2 : Option Nat) (now1 now2 : Nat) :
    (let db0 : DB := ⟨[⟨"X", 0, fXs, fXe⟩, ⟨"Y", 1, fYs, fYe⟩],
        [⟨"a", "X", 0, dA1, dA2⟩, ⟨"b", "X", 1, dB1, dB2⟩,
         ⟨"c", "X", 2, dC1, dC2⟩, ⟨"d", "Y", 0, dD1, dD2⟩,
         ⟨"e", "Y", 1, dE1, dE2⟩]⟩
     let db1 := (reorderPOST db0 ⟨some "a", some "Y", some 2⟩ now1).2
     let db2 := (reorderPOST db1 ⟨some "a", some "X", some 0⟩ now2).2
     (db2.tasks.filter (fun t => t.columnId == "X")).map (fun t => (t.id, t.order)) =
        (db0.tasks.filter (fun t => t.columnId == "X")).map (fun t => (t.id, t.order)) ∧
     (db2.tasks.filter (fun t => t.columnId == "X")).map (fun t => (t.id, t.order)) =
        [("a", 0), ("b", 1), ("c", 2)]) :=
  ⟨rfl, rfl⟩

/-- C5: a drop whose final position equals the pre-gesture position
triggers no call to the reorder handler and leaves the stored state
untouched (hence no storage writes and no timestamp or sibling-order
changes).  First conjunct: whenever the computed final `(columnId,
index)` equals the position in the drag-start snapshot, the system step
returns the stored state unchanged and reports no network call.  Second
conjunct: a self-drop (release over the dragged task itself) leaves the
client board exactly as it was, calls nothing, and changes no stored
row. -/
theorem dragEnd_noop_no_persist :
    (∀ (sdb : DB) (startBoard board : CBoard) (activeId overId : String)
       (now : Nat) (p : String × Int),
      getTaskPosition activeId startBoard.columns = some p →
      (computeDragResult board activeId overId).finalPos = some p →
      systemDragEnd sdb startBoard board activeId overId now =
        (sdb, (computeDragResult board activeId overId).nextBoard, false)) ∧
    (∀ (sdb : DB) (board : CBoard) (activeId : String) (now : Nat),
      systemDragEnd sdb board board activeId activeId now = (sdb, board, false)) := by
  constructor
  · intro sdb sb b a o now p hsp hfp
    simp only [systemDragEnd, dragEndDecision, hfp, hsp, eq_self_iff_true, if_true]
  · intro sdb b a now
    unfold systemDragEnd dragEndDecision computeDragResult
    generalize resolveColumnId a b.columns = res
    rcases res with _ | colId
    · rfl
    · dsimp only
      generalize List.find? (fun c => c.id == colId) b.columns = fnd
      rcases fnd with _ | c
      · rfl
      · dsimp only
        generalize List.findIdx? (fun t => t.id == a) c.tasks = idx
        rcases idx with _ | i
        · rfl
        · dsimp only
          generalize c.tasks.get? i = mt
          rcases mt with _ | mt
          · rfl
          · dsimp only [Option.getD]
            rw [if_pos (beq_self_eq_true colId)]
            rw [if_neg (show ¬ i ≠ i from fun h => h rfl)]
            generalize getTaskPosition a b.columns = pos
            rcases pos with _ | q
            · rfl
            · dsimp only
              rw [if_pos rfl]

/-- Witness for C5: dropping task `a` on itself in a one-task column —
no call, stored state and client board unchanged. -/
theorem dragEnd_noop_no_persist_witness :
    systemDragEnd ⟨[⟨"X", 0, false, false⟩], [⟨"a", "X", 0, none, none⟩]⟩
      ⟨[⟨"X", [⟨"a", "X", 0, "medium", none, none⟩]⟩]⟩
      ⟨[⟨"X", [⟨"a", "X", 0, "medium", none, none⟩]⟩]⟩ "a" "a" 3 =
      (⟨[⟨"X", 0, false, false⟩], [⟨"a", "X", 0, none, none⟩]⟩,
       ⟨[⟨"X", [⟨"a", "X", 0, "medium", none, none⟩]⟩]⟩, false) := by
  have h := dragEnd_noop_no_persist.1
    ⟨[⟨"X", 0, false, false⟩], [⟨"a", "X", 0, none, none⟩]⟩
    ⟨[⟨"X", [⟨"a", "X", 0, "medium", none, none⟩]⟩]⟩
    ⟨[⟨"X", [⟨"a", "X", 0, "medium", none, none⟩]⟩]⟩ "a" "a" 3 ("X", 0) rfl rfl
  exact h

/-- C8: every failed persist rolls the client board back to the exact
drag-start snapshot.  First conjunct: for any boards and ids, if the
drag end issued a call and the fetch threw (network error) or the
response was non-ok (400/404), the resulting board is the snapshot,
verbatim.  Second conjunct: the spec's rollback scenario — optimistic
move of the index-0 task to index 2 in a three-task column, then a
failed persist: the state equals the pre-gesture snapshot. -/
theorem dragEnd_failure_rollback :
    (∀ (sb b : CBoard) (a o : String),
      ((handleDragEndTask sb b a o .networkError).2 = true →
        (handleDragEndTask sb b a o .networkError).1 = sb) ∧
      ((handleDragEndTask sb b a o (.response .badRequest)).2 = true →
        (handleDragEndTask sb b a o (.response .badRequest)).1 = sb) ∧
      ((handleDragEndTask sb b a o (.response .notFound)).2 = true →
        (handleDragEndTask sb b a o (.response .notFound)).1 = sb)) ∧
    (handleDragEndTask
        ⟨[⟨"X", [⟨"a", "X", 0, "medium", none, none⟩,
                 ⟨"b", "X", 1, "medium", none, none⟩,
                 ⟨"c", "X", 2, "medium", none, none⟩]⟩]⟩
        ⟨[⟨"X", [⟨"a", "X", 0, "medium", none, none⟩,
                 ⟨"b", "X", 1, "medium", none, none⟩,
                 ⟨"c", "X", 2, "medium", none, none⟩]⟩]⟩
        "a" "c" .networkError =
      (⟨[⟨"X", [⟨"a", "X", 0, "medium", none, none⟩,
                ⟨"b", "X", 1, "medium", none, none⟩,
                ⟨"c", "X", 2, "medium", none, none⟩]⟩]⟩, true)) := by
  constructor
  · intro sb b a o
    unfold handleDragEndTask
    rcases h : dragEndDecision sb b a o with ⟨ob, _ | fp⟩
    · refine ⟨?_, ?_, ?_⟩ <;> intro hc <;> exact absurd hc (by simp)
    · exact ⟨fun _ => rfl, fun _ => rfl, fun _ => rfl⟩
  · rfl

/-- Witness for C8: the scenario input applied through the general
rollback statement. -/
theorem dragEnd_failure_rollback_witness :
    (handleDragEndTask
        ⟨[⟨"X", [⟨"a", "X", 0, "medium", none, none⟩,
                 ⟨"b", "X", 1, "medium", none, none⟩,
                 ⟨"c", "X", 2, "medium", none, none⟩]⟩]⟩
        ⟨[⟨"X", [⟨"a", "X", 0, "medium", none, none⟩,
                 ⟨"b", "X", 1, "medium", none, none⟩,
                 ⟨"c", "X", 2, "medium", none, none⟩]⟩]⟩
        "a" "c" .networkError).1 =
      ⟨[⟨"X", [⟨"a", "X", 0, "medium", none, none⟩,
               ⟨"b", "X", 1, "medium", none, none⟩,
               ⟨"c", "X", 2, "medium", none, none⟩]⟩]⟩ :=
  (dragEnd_failure_rollback.1
    ⟨[⟨"X", [⟨"a", "X", 0, "medium", none, none⟩,
             ⟨"b", "X", 1, "medium", none, none⟩,
             ⟨"c", "X", 2, "medium", none, none⟩]⟩]⟩
    ⟨[⟨"X", [⟨"a", "X", 0, "medium", none, none⟩,
             ⟨"b", "X", 1, "medium", none, none⟩,
             ⟨"c", "X", 2, "medium", none, none⟩]⟩]⟩
    "a" "c").1 rfl

/-- C7 is contradicted by the code: on success the route returns the
whole board tree (`NextResponse.json(board)` with all columns and all
tasks), not the updated item; the client then reads `startDate`/
`endDate` off that board-shaped JSON — fields it does not have — and
writes null into the moved task's local dates.  Concretely: moving `a`
into the exit column `Y` stores `endDate = 42` on the server, the
response is a two-column full-tree payload containing the unmoved task
`b`, and the client board ends with `endDate = null` on `a`. -/
theorem reorder_returns_board_and_client_nulls_dates :
    (let db : DB := ⟨[⟨"X", 0, false, false⟩, ⟨"Y", 1, false, true⟩],
       [⟨"a", "X", 0, none, none⟩, ⟨"b", "Y", 0, none, none⟩]⟩
     let cb : CBoard := ⟨[⟨"X", [⟨"a", "X", 0, "medium", none, none⟩]⟩,
       ⟨"Y", [⟨"b", "Y", 0, "medium", none, none⟩]⟩]⟩
     let res := systemDragEnd db cb cb "a" "Y" 42
     ((taskById res.1.tasks "a").map (fun x => x.endDate) = some (some 42)) ∧
     ((reorderPOST db ⟨some "a", some "Y", some 1⟩ 42).1 =
       .boardPayload (boardPayload res.1)) ∧
     (boardPayload res.1).length = 2 ∧
     ((boardPayload res.1).map (fun p => (p.2.map (fun t => t.id)))) = [[], ["b", "a"]] ∧
     (res.2.1.columns.map (fun c => c.tasks.map (fun t => (t.id, t.endDate)))) =
       [[], [("b", none), ("a", none)]] ∧
     res.2.2 = true) := by
  refine ⟨?_, ?_, ?_, ?_, ?_, ?_⟩ <;> decide

/-- C6, counterexample: the handler performs no range validation.  With
column `X` holding two tasks, the request `newOrder = 5` (far outside
`[0, 2]`) is not answered with a 400-class error and does commit: the
store changes and task `a` ends with order 5. -/
theorem reorder_out_of_range_commits :
    (let db : DB := ⟨[⟨"X", 0, false, false⟩],
       [⟨"a", "X", 0, none, none⟩, ⟨"b", "X", 1, none, none⟩]⟩
     let res := reorderPOST db ⟨some "a", some "X", some 5⟩ 0
     res.1 ≠ .badRequest ∧ res.2 ≠ db ∧
     (taskById res.2.tasks "a").map (fun x => x.order) = some 5) := by
  refine ⟨?_, ?_, ?_⟩ <;> decide

/-- C6, amended: the 400 response is tied exactly to missing (JS-falsy)
body fields, and such requests leave the store unchanged; the target
index is never range-checked — a request that passes the field check is
never answered 400, whatever its index (and an out-of-range index is
committed, see the counterexample). -/
theorem reorder_badRequest_only_missing_fields :
    (∀ (db : DB) (req : ReorderRequest) (now : Nat),
      (jsFalsyStr req.taskId || jsFalsyStr req.columnId || req.newOrder.isNone) = true →
      reorderPOST db req now = (.badRequest, db)) ∧
    (∀ (db : DB) (req : ReorderRequest) (now : Nat),
      (jsFalsyStr req.taskId || jsFalsyStr req.columnId || req.newOrder.isNone) = false →
      (reorderPOST db req now).1 ≠ .badRequest) := by
  constructor
  · intro db req now h
    unfold reorderPOST
    rw [if_pos h]
  · intro db req now h
    unfold reorderPOST
    rw [if_neg (by simp [h])]
    rcases findTask db.tasks (req.taskId.getD "") with _ | t
    · simp
    · rcases findColumn db.columns (req.columnId.getD "") with _ | col <;> simp

/-- Witness for the amended C6: a request with a missing `taskId` gets
the 400 response and leaves the store unchanged; the same request with
all fields present (even with an absurd index) is not a 400. -/
theorem reorder_badRequest_only_missing_fields_witness :
    (reorderPOST ⟨[⟨"X", 0, false, false⟩], [⟨"a", "X", 0, none, none⟩]⟩
        ⟨none, some "X", some 0⟩ 7 =
      (.badRequest, ⟨[⟨"X", 0, false, false⟩], [⟨"a", "X", 0, none, none⟩]⟩)) ∧
    ((reorderPOST ⟨[⟨"X", 0, false, false⟩], [⟨"a", "X", 0, none, none⟩]⟩
        ⟨some "a", some "X", some 99⟩ 7).1 ≠ .badRequest) :=
  ⟨reorder_badRequest_only_missing_fields.1
      ⟨[⟨"X", 0, false, false⟩], [⟨"a", "X", 0, none, none⟩]⟩
      ⟨none, some "X", some 0⟩ 7 (by decide),
   reorder_badRequest_only_missing_fields.2
      ⟨[⟨"X", 0, false, false⟩], [⟨"a", "X", 0, none, none⟩]⟩
      ⟨some "a", some "X", some 99⟩ 7 (by decide)⟩

/-- C10: what a column renders is `sortTasksByPriority` of its task
array, not the persisted order sequence.  First conjunct: the sort
returns a permutation of the tasks that is sorted under `taskLE` —
priority rank first (critical < high < medium < low < nice_to_have),
stored `order` only as tie-breaker.  Second conjunct: every rendered
column (`sortedColumns`) is such a sorted permutation of the
corresponding state column.  Then: a concrete column where the visual
order inverts the persisted order, and the rank table with its
unknown-priority default of 2 (= medium). -/
theorem render_sort_by_priority :
    (∀ tasks : List CTask,
      (sortTasksByPriority tasks).Perm tasks ∧
      List.Sorted taskLE (sortTasksByPriority tasks)) ∧
    (∀ b : CBoard, ∀ c ∈ sortedColumns b,
      List.Sorted taskLE c.tasks ∧
      ∃ c0 ∈ b.columns, c0.id = c.id ∧ c.tasks.Perm c0.tasks) ∧
    (sortTasksByPriority
        [⟨"t1", "X", 0, "low", none, none⟩, ⟨"t2", "X", 1, "critical", none, none⟩] =
      [⟨"t2", "X", 1, "critical", none, none⟩, ⟨"t1", "X", 0, "low", none, none⟩]) ∧
    priorityRank "critical" = 0 ∧ priorityRank "nice_to_have" = 4 ∧
    priorityRank "not_a_known_priority" = 2 ∧ priorityRank "medium" = 2 := by
  refine ⟨?_, ?_, ?_, rfl, rfl, rfl, rfl⟩
  · intro tasks
    exact ⟨List.perm_insertionSort taskLE tasks, List.sorted_insertionSort taskLE tasks⟩
  · intro b c hc
    obtain ⟨c0, hc0, rfl⟩ := List.mem_map.1 hc
    exact ⟨List.sorted_insertionSort taskLE c0.tasks,
      c0, hc0, rfl, List.perm_insertionSort taskLE c0.tasks⟩
  · decide

/-- Witness for C10: the rendered copy of a concrete two-task column is
sorted and a permutation of it. -/
theorem render_sort_by_priority_witness :
    List.Sorted taskLE
      (⟨"X", [⟨"t2", "X", 1, "critical", none, none⟩,
              ⟨"t1", "X", 0, "low", none, none⟩]⟩ : CColumn).tasks ∧
    ∃ c0 ∈ (⟨[⟨"X", [⟨"t1", "X", 0, "low", none, none⟩,
                     ⟨"t2", "X", 1, "critical", none, none⟩]⟩]⟩ : CBoard).columns,
      c0.id = "X" ∧
        (⟨"X", [⟨"t2", "X", 1, "critical", none, none⟩,
                ⟨"t1", "X", 0, "low", none, none⟩]⟩ : CColumn).tasks.Perm c0.tasks := by
  have h := render_sort_by_priority.2.1
    ⟨[⟨"X", [⟨"t1", "X", 0, "low", none, none⟩,
             ⟨"t2", "X", 1, "critical", none, none⟩]⟩]⟩
    ⟨"X", [⟨"t2", "X", 1, "critical", none, none⟩,
           ⟨"t1", "X", 0, "low", none, none⟩]⟩
    (by rw [show sortedColumns ⟨[⟨"X", [⟨"t1", "X", 0, "low", none, none⟩,
             ⟨"t2", "X", 1, "critical", none, none⟩]⟩]⟩ =
        [⟨"X", [⟨"t2", "X", 1, "critical", none, none⟩,
                ⟨"t1", "X", 0, "low", none, none⟩]⟩] from by decide]
        exact List.mem_singleton.2 rfl)
  exact ⟨h.1, h.2⟩

end Kanban
